import Mathlib

/-!
Verification of the chrona-physics engine against its specification.

The development shallowly embeds the engine's core data structures and
operations: the 2D vector / affine-transform primitives, trajectories,
the discrete-event clock, the geometry builder, collision-candidate
generation, the exact vertex-edge solver and the collision response.

Numbers: the JavaScript sources compute with IEEE-754 doubles.  The
embedding models them as exact rationals (`ℚ`) wherever the code is
purely ring/field arithmetic, and as reals (`ℝ`) for the solver and the
collision response, whose code calls `Math.sqrt`.  `Math.sqrt` is
modelled by `Real.sqrt`, JavaScript's `Infinity` / `-Infinity` by
`WithTop` / `WithBot` coercions where the code genuinely stores them.
-/

/-- Model of the `V2` class of `chrona/math/transform.mjs`: an ordered pair
of numbers.  Methods that mutate `this` in place are modelled as functions
returning the new value. -/
structure V2 (α : Type) where
  x : α
  y : α
deriving Repr, DecidableEq

/-- Model of the `Transform` class: six numbers forming the linear columns
`a`, `b` and the translation column `p` (`arr[0..5]` in the source). -/
structure Transform (α : Type) where
  a : V2 α
  b : V2 α
  p : V2 α
deriving Repr, DecidableEq

namespace V2

variable {α : Type} [Field α]

/-- The `V2.zero()` constructor. -/
def zero : V2 α := ⟨0, 0⟩

/-- Method `add` of `V2` (componentwise). -/
def add (v w : V2 α) : V2 α := ⟨v.x + w.x, v.y + w.y⟩

/-- Method `sub` of `V2` (componentwise). -/
def sub (v w : V2 α) : V2 α := ⟨v.x - w.x, v.y - w.y⟩

/-- Method `negate` of `V2`. -/
def negate (v : V2 α) : V2 α := ⟨-v.x, -v.y⟩

/-- Method `scale` of `V2`: multiply both components by a factor. -/
def scale (v : V2 α) (factor : α) : V2 α := ⟨v.x * factor, v.y * factor⟩

/-- Method `addScaled` of `V2`: `this += scale * vec`. -/
def addScaled (v w : V2 α) (s : α) : V2 α := ⟨v.x + s * w.x, v.y + s * w.y⟩

/-- Method `dotVec` of `V2` (also reached through the `dot(...)` dispatcher). -/
def dot (v w : V2 α) : α := v.x * w.x + v.y * w.y

/-- Method `crossVec` of `V2` (also reached through the `cross(...)`
dispatcher): the scalar 2D cross product `x₁y₂ − y₁x₂`. -/
def cross (v w : V2 α) : α := v.x * w.y - v.y * w.x

/-- Method `perp` of `V2`: counter-clockwise quarter turn `(x, y) ↦ (−y, x)`. -/
def perp (v : V2 α) : V2 α := ⟨-v.y, v.x⟩

/-- Method `mag2` of `V2`: squared magnitude. -/
def mag2 (v : V2 α) : α := v.x ^ 2 + v.y ^ 2

/-- Method `lerp` of `V2`: `this * (1 - t) + b * t` componentwise. -/
def lerp (v w : V2 α) (t : α) : V2 α :=
  ⟨v.x * (1 - t) + w.x * t, v.y * (1 - t) + w.y * t⟩

/-- Method `project` of `V2`: orthogonal projection of `this` onto `axis`. -/
def project (v axis : V2 α) : V2 α :=
  let t := (v.x * axis.x + v.y * axis.y) / (axis.x ^ 2 + axis.y ^ 2)
  ⟨t * axis.x, t * axis.y⟩

/-- Method `applyTransform` of `V2`: point application
`(x, y) ↦ a·x + b·y + p`. -/
def applyTransform (v : V2 α) (t : Transform α) : V2 α :=
  ⟨t.a.x * v.x + t.b.x * v.y + t.p.x, t.a.y * v.x + t.b.y * v.y + t.p.y⟩

/-- Method `applyTransformAffine` of `V2`: direction application, the
translation column is omitted. -/
def applyTransformAffine (v : V2 α) (t : Transform α) : V2 α :=
  ⟨t.a.x * v.x + t.b.x * v.y, t.a.y * v.x + t.b.y * v.y⟩

/-- Method `mag` of `V2` for real vectors: `Math.sqrt(x² + y²)`. -/
noncomputable def mag (v : V2 ℝ) : ℝ := Real.sqrt (v.x ^ 2 + v.y ^ 2)

/-- Method `normalize` of `V2` for real vectors: divide by the length
unless the length is zero. -/
noncomputable def normalize (v : V2 ℝ) : V2 ℝ :=
  if mag v = 0 then v else ⟨v.x / mag v, v.y / mag v⟩

end V2

namespace Transform

variable {α : Type} [Field α]

/-- The `Transform.zero()` constructor. -/
def zero : Transform α := ⟨⟨0, 0⟩, ⟨0, 0⟩, ⟨0, 0⟩⟩

/-- The `Transform.identity()` constructor. -/
def identity : Transform α := ⟨⟨1, 0⟩, ⟨0, 1⟩, ⟨0, 0⟩⟩

/-- Method `applyVec` of `Transform`: apply to a point
(`arr[0]·x + arr[2]·y + arr[4]`, `arr[1]·x + arr[3]·y + arr[5]`). -/
def applyVec (t : Transform α) (v : V2 α) : V2 α :=
  ⟨t.a.x * v.x + t.b.x * v.y + t.p.x, t.a.y * v.x + t.b.y * v.y + t.p.y⟩

/-- Method `applyAffineVec` of `Transform`: apply to a direction. -/
def applyAffineVec (t : Transform α) (v : V2 α) : V2 α :=
  ⟨t.a.x * v.x + t.b.x * v.y, t.a.y * v.x + t.b.y * v.y⟩

/-- Method `add` of `Transform` (componentwise on all six fields). -/
def add (s t : Transform α) : Transform α :=
  ⟨⟨s.a.x + t.a.x, s.a.y + t.a.y⟩, ⟨s.b.x + t.b.x, s.b.y + t.b.y⟩,
   ⟨s.p.x + t.p.x, s.p.y + t.p.y⟩⟩

/-- Method `addScaled` of `Transform`: `this += scale * transform`
componentwise. -/
def addScaled (s t : Transform α) (c : α) : Transform α :=
  ⟨⟨s.a.x + c * t.a.x, s.a.y + c * t.a.y⟩, ⟨s.b.x + c * t.b.x, s.b.y + c * t.b.y⟩,
   ⟨s.p.x + c * t.p.x, s.p.y + c * t.p.y⟩⟩

/-- Method `sub` of `Transform` (componentwise). -/
def sub (s t : Transform α) : Transform α :=
  ⟨⟨s.a.x - t.a.x, s.a.y - t.a.y⟩, ⟨s.b.x - t.b.x, s.b.y - t.b.y⟩,
   ⟨s.p.x - t.p.x, s.p.y - t.p.y⟩⟩

/-- Method `scale` of `Transform` with the default center `V2.zero()`; the
source then multiplies all six entries by the factor. -/
def scale (s : Transform α) (factor : α) : Transform α :=
  ⟨⟨s.a.x * factor, s.a.y * factor⟩, ⟨s.b.x * factor, s.b.y * factor⟩,
   ⟨s.p.x * factor, s.p.y * factor⟩⟩

end Transform

/-- Model of the `Trajectory` class of `physics/trajectory.mjs`.  The
`clock` reference is not stored; operations that read `this.clock.time`
take the current clock time `now` as an explicit argument.  The
`dependants` set only feeds collision recalculation and is not part of the
transform state. -/
structure Trajectory (α : Type) where
  base : Transform α
  motion : Transform α
  time : α
deriving Repr, DecidableEq

namespace Trajectory

variable {α : Type} [Field α]

/-- Method `updateToPresent`: advance `base` to the current clock time and
re-anchor. -/
def updateToPresent (tr : Trajectory α) (now : α) : Trajectory α :=
  ⟨tr.base.addScaled tr.motion (now - tr.time), tr.motion, now⟩

/-- Method `getTransform`: `base.copy().addScaled(motion, clock.time - time)`. -/
def getTransform (tr : Trajectory α) (now : α) : Transform α :=
  tr.base.addScaled tr.motion (now - tr.time)

/-- Method `setMotion`: through `modify`, i.e. `updateToPresent` first, then
replace `motion` (the dependant notification carries no transform state). -/
def setMotion (tr : Trajectory α) (now : α) (m : Transform α) : Trajectory α :=
  let tr' := tr.updateToPresent now
  ⟨tr'.base, m, tr'.time⟩

/-- Method `transformTo`:
`setMotion(transform.copy().sub(getTransform()).scale(1 / time))`. -/
def transformTo (tr : Trajectory α) (now : α) (target : Transform α) (time : α) :
    Trajectory α :=
  tr.setMotion now ((target.sub (tr.getTransform now)).scale (1 / time))

/-- Method `impulse`: through `modify`, add a vector to `motion.p`. -/
def impulse (tr : Trajectory α) (now : α) (v : V2 α) : Trajectory α :=
  let tr' := tr.updateToPresent now
  ⟨tr'.base, ⟨tr'.motion.a, tr'.motion.b, tr'.motion.p.add v⟩, tr'.time⟩

/-- Method `stop`: through `modify`, zero the motion. -/
def stop (tr : Trajectory α) (now : α) : Trajectory α :=
  let tr' := tr.updateToPresent now
  ⟨tr'.base, Transform.zero, tr'.time⟩

/-- Method `posOf`: the source applies `this.base` to the vector
(`V2.new(...args).applyTransform(this.base)`). -/
def posOf (tr : Trajectory α) (v : V2 α) : V2 α :=
  v.applyTransform tr.base

/-- Method `velOf`: apply `this.motion` to the vector as a point. -/
def velOf (tr : Trajectory α) (v : V2 α) : V2 α :=
  v.applyTransform tr.motion

end Trajectory

/-- The trajectory of the repository's getting-started guide: base
`Transform.scale(50).translateVals(200, 200)` and, after `impulse(50, 0)`
at time 0, a motion whose translation column is `(50, 0)`. -/
def docExampleTrajectory : Trajectory ℚ :=
  ⟨⟨⟨50, 0⟩, ⟨0, 50⟩, ⟨200, 200⟩⟩, ⟨⟨0, 0⟩, ⟨0, 0⟩, ⟨50, 0⟩⟩, 0⟩

/-- C2: `posOf` applies only `base`, ignoring the motion accumulated since
the anchor time.  At the getting-started guide's own example (impulse
`(50,0)` at time 0, clock run to 2), the guide documents
`posOf(1, 1) // 350, 250`, yet the code returns `(250, 250)`, while
`getTransform()` applied to `(1, 1)` gives the documented `(350, 250)`.
So `posOf(v)` differs from the current transform applied to `v`. -/
theorem posOf_ne_getTransform_doc_example :
    docExampleTrajectory.posOf ⟨1, 1⟩ = ⟨250, 250⟩ ∧
    V2.applyTransform ⟨1, 1⟩ (docExampleTrajectory.getTransform 2) = ⟨350, 250⟩ ∧
    docExampleTrajectory.posOf ⟨1, 1⟩ ≠
      V2.applyTransform ⟨1, 1⟩ (docExampleTrajectory.getTransform 2) := by
  refine ⟨?_, ?_, ?_⟩ <;>
    norm_num [docExampleTrajectory, Trajectory.posOf, Trajectory.getTransform,
      V2.applyTransform, Transform.addScaled, V2.mk.injEq]

/-- C7: after `transformTo(target, Δt)` issued at clock time `now`, reading
`getTransform()` at clock time `now + Δt` yields exactly `target`, for every
`Δt > 0` and with no intervening mutation. -/
theorem transformTo_reaches_target (tr : Trajectory ℚ) (now : ℚ)
    (target : Transform ℚ) (dt : ℚ) (h : 0 < dt) :
    (tr.transformTo now target dt).getTransform (now + dt) = target := by
  have hne : dt ≠ 0 := ne_of_gt h
  simp only [Trajectory.transformTo, Trajectory.setMotion, Trajectory.getTransform,
    Trajectory.updateToPresent, Transform.sub, Transform.scale, Transform.addScaled]
  cases target with
  | mk a b p =>
    cases a; cases b; cases p
    simp only [Transform.mk.injEq, V2.mk.injEq]
    refine ⟨⟨?_, ?_⟩, ⟨?_, ?_⟩, ⟨?_, ?_⟩⟩ <;> (field_simp; try ring)

/-- Witness for C7 at a concrete input: `Δt = 1`, starting from the identity
trajectory at time 0 with target translation `(3, 4)`. -/
theorem transformTo_reaches_target_witness :
    (0 : ℚ) < 1 ∧
    (Trajectory.transformTo (⟨Transform.identity, Transform.zero, 0⟩ : Trajectory ℚ) 0
        ⟨⟨1, 0⟩, ⟨0, 1⟩, ⟨3, 4⟩⟩ 1).getTransform (0 + 1) = ⟨⟨1, 0⟩, ⟨0, 1⟩, ⟨3, 4⟩⟩ :=
  ⟨by norm_num,
   transformTo_reaches_target (⟨Transform.identity, Transform.zero, 0⟩ : Trajectory ℚ) 0
     ⟨⟨1, 0⟩, ⟨0, 1⟩, ⟨3, 4⟩⟩ 1 (by norm_num)⟩

/-- Model of the `Vertex` class: position plus incoming tangent `t0` and
outgoing tangent `t1`. -/
structure Vertex (α : Type) where
  p : V2 α
  t0 : V2 α
  t1 : V2 α
deriving Repr, DecidableEq

/-- Model of the `Edge` class: the oriented segment from `p0` to `p1`
(the solid side lies to the right when walking from `p0` to `p1`). -/
structure Edge (α : Type) where
  p0 : V2 α
  p1 : V2 α
deriving Repr, DecidableEq

/-- Model of the `GeometryBuilder` class of `chrona/math/transform.mjs`.
The bound accumulators start at JavaScript `Infinity` / `-Infinity`, which
is modelled with `WithTop ℚ` / `WithBot ℚ`. -/
structure GeometryBuilder where
  pos0 : V2 ℚ
  pos1 : V2 ℚ
  prevPrev : V2 ℚ
  prev : V2 ℚ
  n : ℕ
  vertexArray : List (Vertex ℚ)
  edgeArray : List (Edge ℚ)
  minX : WithTop ℚ
  maxX : WithBot ℚ
  minY : WithTop ℚ
  maxY : WithBot ℚ
deriving Repr, DecidableEq

namespace GeometryBuilder

/-- The `new GeometryBuilder()` state. -/
def new : GeometryBuilder :=
  ⟨V2.zero, V2.zero, V2.zero, V2.zero, 0, [], [], ⊤, ⊥, ⊤, ⊥⟩

/-- Method `to` of `GeometryBuilder` for a single vertex (named `toV` here
because `to` is a Lean keyword); the variadic source loops this body over
its arguments. -/
def toV (bld : GeometryBuilder) (p : V2 ℚ) : GeometryBuilder :=
  let bld :=
    { bld with
      minX := min bld.minX (p.x : WithTop ℚ)
      maxX := max bld.maxX (p.x : WithBot ℚ)
      minY := min bld.minY (p.y : WithTop ℚ)
      maxY := max bld.maxY (p.y : WithBot ℚ) }
  if 1 ≤ bld.n then
    let bld := { bld with edgeArray := bld.edgeArray ++ [Edge.mk bld.prev p] }
    let bld :=
      if 2 ≤ bld.n then
        { bld with
          vertexArray := bld.vertexArray ++
            [Vertex.mk bld.prev (bld.prev.sub bld.prevPrev) (p.sub bld.prev)] }
      else
        { bld with pos1 := p }
    { bld with prevPrev := bld.prev, prev := p, n := bld.n + 1 }
  else
    { bld with pos0 := p, prev := p, n := bld.n + 1 }

/-- Method `to` folded over several vertices, as the variadic source does. -/
def toMany (bld : GeometryBuilder) (ps : List (V2 ℚ)) : GeometryBuilder :=
  ps.foldl toV bld

/-- Method `break` of `GeometryBuilder` (named `breakPath` here because
`break` is a Lean keyword): begin a new path by resetting the counter. -/
def breakPath (bld : GeometryBuilder) : GeometryBuilder :=
  { bld with n := 0 }

/-- Method `close` of `GeometryBuilder`: with fewer than two vertices it
returns before doing anything (in particular before `break`); otherwise it
emits the closing edge and the two corner vertices and begins a new path. -/
def close (bld : GeometryBuilder) : GeometryBuilder :=
  if bld.n < 2 then bld
  else
    breakPath
      { bld with
        edgeArray := bld.edgeArray ++ [Edge.mk bld.prev bld.pos0]
        vertexArray := bld.vertexArray ++
          [Vertex.mk bld.prev (bld.prev.sub bld.prevPrev) (bld.pos0.sub bld.prev),
           Vertex.mk bld.pos0 (bld.pos0.sub bld.prev) (bld.pos1.sub bld.pos0)] }

/-- Method `polygon` of `GeometryBuilder`: `break`, then `to` each vertex,
then `close`. -/
def polygon (bld : GeometryBuilder) (ps : List (V2 ℚ)) : GeometryBuilder :=
  (toMany (breakPath bld) ps).close

end GeometryBuilder

/-- C8 counterexample: `close()` on a path holding one vertex leaves the
vertex counter at 1 (the source returns before `break`), so the next `to`
continues the old path and emits an edge from the supposedly abandoned
vertex, instead of starting a fresh path. -/
theorem close_underflow_keeps_path :
    ((GeometryBuilder.new.toV ⟨0, 0⟩).close).n = 1 ∧
    (((GeometryBuilder.new.toV ⟨0, 0⟩).close).toV ⟨5, 0⟩).edgeArray =
      [⟨⟨0, 0⟩, ⟨5, 0⟩⟩] := by
  constructor <;> rfl

/-- C8 (amended): `close()` with fewer than two vertices in the current
path is a silent no-op — no edge or vertex is emitted and no error is
raised — but the path is not reset: the builder state is entirely
unchanged, so subsequent `to()` calls continue the current path. -/
theorem close_underflow_noop (bld : GeometryBuilder) (h : bld.n < 2) :
    bld.close = bld := by
  simp [GeometryBuilder.close, h]

/-- Witness for C8 at a concrete input: a fresh builder has no vertices in
its path, and `close` leaves it untouched. -/
theorem close_underflow_noop_witness :
    GeometryBuilder.new.n < 2 ∧ GeometryBuilder.new.close = GeometryBuilder.new :=
  ⟨by decide, close_underflow_noop GeometryBuilder.new (by decide)⟩

/-- Model of the `Geometry` class as consumed by candidate generation: the
vertex and edge sets plus the geometry-space bounding box.  The claims
exercised here only use geometries with finite bounds, so the box fields
are plain rationals. -/
structure Geometry where
  vertices : List (Vertex ℚ)
  edges : List (Edge ℚ)
  minX : ℚ
  maxX : ℚ
  minY : ℚ
  maxY : ℚ
deriving Repr, DecidableEq

/-- Model of a `PhysicsObject` as consumed by candidate generation: its
geometry and trajectory.  JavaScript compares objects by reference
(`a == b`); the model gives each object an identity token `oid` so that
structural equality of models coincides with reference equality of the
objects they stand for.  The collision bookkeeping fields (heaps, event
lists, cycle stamps) play no role in `generateCollisionCandidates`. -/
structure PhysicsObject where
  oid : ℕ
  geometry : Geometry
  trajectory : Trajectory ℚ
deriving Repr, DecidableEq

/-- Extended rationals standing for JavaScript numbers that may hold
`Infinity` (`⊤`) or `-Infinity` (`⊥`). -/
abbrev QInf := WithBot (WithTop ℚ)

/-- Coerce a finite rational into `QInf`. -/
def qinf (q : ℚ) : QInf := ((q : WithTop ℚ) : QInf)

/-- Model of a `CollisionCandidate`, parameterized by the rule type (the
rule is only carried through by candidate generation). -/
structure CollisionCandidate (ρ : Type) where
  a : PhysicsObject
  b : PhysicsObject
  earliestTime : QInf
  collisionRule : ρ
deriving Repr

/-- The eight scalars returned by the inner `generateBox` helper of
`generateCollisionCandidates`: componentwise position and velocity bounds
over the four corners of the moving geometry-space AABB. -/
structure SweptBox where
  xMin : ℚ
  xMinVel : ℚ
  xMax : ℚ
  xMaxVel : ℚ
  yMin : ℚ
  yMinVel : ℚ
  yMax : ℚ
  yMaxVel : ℚ
deriving Repr, DecidableEq

/-- The `generateBox` helper of `generateCollisionCandidates`: corner
velocities come from applying `motion` to each AABB corner as a point, and
corner positions from `base + (now − trajectory.time)·motion`. -/
def generateBox (obj : PhysicsObject) (now : ℚ) : SweptBox :=
  let vMinX := obj.geometry.minX
  let vMaxX := obj.geometry.maxX
  let vMinY := obj.geometry.minY
  let vMaxY := obj.geometry.maxY
  let vax := obj.trajectory.motion.a.x
  let vay := obj.trajectory.motion.a.y
  let vbx := obj.trajectory.motion.b.x
  let vby := obj.trajectory.motion.b.y
  let vpx := obj.trajectory.motion.p.x
  let vpy := obj.trajectory.motion.p.y
  let v0x := vax * vMinX + vbx * vMinY + vpx
  let v0y := vay * vMinX + vby * vMinY + vpy
  let v1x := vax * vMaxX + vbx * vMinY + vpx
  let v1y := vay * vMaxX + vby * vMinY + vpy
  let v2x := vax * vMinX + vbx * vMaxY + vpx
  let v2y := vay * vMinX + vby * vMaxY + vpy
  let v3x := vax * vMaxX + vbx * vMaxY + vpx
  let v3y := vay * vMaxX + vby * vMaxY + vpy
  let dt := now - obj.trajectory.time
  let pax := obj.trajectory.base.a.x + vax * dt
  let pay := obj.trajectory.base.a.y + vay * dt
  let pbx := obj.trajectory.base.b.x + vbx * dt
  let pby := obj.trajectory.base.b.y + vby * dt
  let ppx := obj.trajectory.base.p.x + vpx * dt
  let ppy := obj.trajectory.base.p.y + vpy * dt
  let p0x := pax * vMinX + pbx * vMinY + ppx
  let p0y := pay * vMinX + pby * vMinY + ppy
  let p1x := pax * vMaxX + pbx * vMinY + ppx
  let p1y := pay * vMaxX + pby * vMinY + ppy
  let p2x := pax * vMinX + pbx * vMaxY + ppx
  let p2y := pay * vMinX + pby * vMaxY + ppy
  let p3x := pax * vMaxX + pbx * vMaxY + ppx
  let p3y := pay * vMaxX + pby * vMaxY + ppy
  ⟨min (min (min p0x p1x) p2x) p3x, min (min (min v0x v1x) v2x) v3x,
   max (max (max p0x p1x) p2x) p3x, max (max (max v0x v1x) v2x) v3x,
   min (min (min p0y p1y) p2y) p3y, min (min (min v0y v1y) v2y) v3y,
   max (max (max p0y p1y) p2y) p3y, max (max (max v0y v1y) v2y) v3y⟩

/-- The `constrain` helper of `generateCollisionCandidates`: constrain the
interval `[mn, mx]` so that `0 ≤ m·t + b`; a contradictory constant
constraint empties the interval by setting `min = Infinity`,
`max = -Infinity`. -/
def constrain (m b : ℚ) (mn mx : QInf) : QInf × QInf :=
  if m = 0 then
    if b < 0 then (((⊤ : WithTop ℚ) : QInf), (⊥ : QInf)) else (mn, mx)
  else
    let x := -b / m
    if 0 < m then (max mn (qinf x), mx) else (mn, min mx (qinf x))

/-- Model of `generateCollisionCandidates` of
`collision-candidate-generation.mjs`: the self-test guard, the swept
bounding boxes and the four linear overlap constraints intersected over
`t ≥ 0`. -/
def generateCollisionCandidates {ρ : Type} (a b : PhysicsObject) (now : ℚ)
    (collisionRule : ρ) : Option (CollisionCandidate ρ) :=
  if a = b then none
  else
    let A := generateBox a now
    let B := generateBox b now
    let s0 : QInf × QInf := (qinf 0, ((⊤ : WithTop ℚ) : QInf))
    let s1 := constrain (B.xMaxVel - A.xMinVel) (B.xMax - A.xMin) s0.1 s0.2
    let s2 := constrain (A.xMaxVel - B.xMinVel) (A.xMax - B.xMin) s1.1 s1.2
    let s3 := constrain (B.yMaxVel - A.yMinVel) (B.yMax - A.yMin) s2.1 s2.2
    let s4 := constrain (A.yMaxVel - B.yMinVel) (A.yMax - B.yMin) s3.1 s3.2
    if s4.2 < s4.1 then none
    else some ⟨a, b, qinf now + s4.1, collisionRule⟩

/-- C10: an object is never tested against itself — for every object `a`,
every time `now` and every collision rule, `generateCollisionCandidates`
called with the same object on both sides returns `null`. -/
theorem generateCollisionCandidates_self_none {ρ : Type} (a : PhysicsObject)
    (now : ℚ) (collisionRule : ρ) :
    generateCollisionCandidates a a now collisionRule = none := by
  simp [generateCollisionCandidates]

/-- Callback language for clock callbacks.  Event callbacks and preprocess
callbacks in the engine are arbitrary closures; the claims about the clock
concern callbacks that observe the clock (`note`), schedule events
(`sched`, via `clock.schedule`), cancel events by setting their valid flag
(`cancel`) and register preprocesses (`addPre`, via
`clock.addPreprocess`).  Every clock mutation available to a callback acts
through one of these. -/
inductive Act : Type where
  | note (id : ℕ)
  | sched (time : ℚ) (id : ℕ) (cb : List Act)
  | cancel (id : ℕ)
  | addPre (cb : List Act)

/-- Model of the `ClockEvent` class: scheduled time, validity flag and
callback.  The `id` identifies the event object (JavaScript callbacks hold
references; `cancel` flips the flag of the referenced event). -/
structure ClockEvent where
  time : ℚ
  id : ℕ
  valid : Bool
  cb : List Act

/-- Model of the `Clock` class.  The event heap (`util/heap.mjs`, not part
of the sources) is modelled from the spec: a min-heap keyed by time with a
deterministic insertion-order tie-break, represented as a sorted list.
`trace` records each event-callback `note` as `(id, clock.time)`;
`preTrace` records each preprocess `note` as `(id, cycle)` — these model
the observations callbacks can make. -/
structure Clock where
  time : ℚ
  cycle : ℕ
  events : List ClockEvent
  preprocesses : List (List Act)
  runToCycleLimit : ℕ
  trace : List (ℕ × ℚ)
  preTrace : List (ℕ × ℕ)

/-- Push onto the spec-modelled min-heap: insert after every entry with an
earlier-or-equal time, preserving insertion order among ties. -/
def heapPush (e : ClockEvent) : List ClockEvent → List ClockEvent
  | [] => [e]
  | x :: xs => if x.time ≤ e.time then x :: heapPush e xs else e :: x :: xs

/-- Method `schedule` of `Clock` for one event: events in the past are
discarded silently. -/
def scheduleOne (c : Clock) (e : ClockEvent) : Clock :=
  if e.time < c.time then c else { c with events := heapPush e c.events }

/-- Method `schedule` of `Clock`, folded over its variadic arguments. -/
def Clock.schedule (c : Clock) (evs : List ClockEvent) : Clock :=
  evs.foldl scheduleOne c

/-- Method `addPreprocess` of `Clock`, folded over its variadic
arguments. -/
def Clock.addPreprocess (c : Clock) (ps : List (List Act)) : Clock :=
  { c with preprocesses := c.preprocesses ++ ps }

/-- Set `valid = false` on the event the identifier refers to. -/
def cancelEvents (id : ℕ) (l : List ClockEvent) : List ClockEvent :=
  l.map fun e => if e.id = id then { e with valid := false } else e

/-- Execute one callback action in event context (the callback receives
the clock; `note` observes `clock.time`). -/
def execAct (c : Clock) : Act → Clock
  | .note id => { c with trace := c.trace ++ [(id, c.time)] }
  | .sched t id cb => scheduleOne c ⟨t, id, true, cb⟩
  | .cancel id => { c with events := cancelEvents id c.events }
  | .addPre cb => { c with preprocesses := c.preprocesses ++ [cb] }

/-- Execute an event callback: its actions in order. -/
def execActs (c : Clock) (acts : List Act) : Clock :=
  acts.foldl execAct c

mutual

/-- Termination weight of one action (`addPre` counts its payload, which
the preprocess phase may later execute). -/
def actWeight : Act → ℕ
  | .addPre cb => 2 + actsWeight cb
  | _ => 1

/-- Termination weight of an action list. -/
def actsWeight : List Act → ℕ
  | [] => 0
  | a :: l => actWeight a + actsWeight l

end

/-- Termination weight of the pending-preprocess queue. -/
def todoWeight : List (List Act) → ℕ
  | [] => 0
  | cb :: t => 1 + actsWeight cb + todoWeight t

theorem todoWeight_append (l : List (List Act)) (cb : List Act) :
    todoWeight (l ++ [cb]) = todoWeight l + (1 + actsWeight cb) := by
  induction l with
  | nil => simp [todoWeight]
  | cons hd tl ih => simp [todoWeight, ih]; omega

/-- The preprocess phase of a clock cycle:
`for (const preprocess of this.preprocesses) preprocess(this.cycle)`.
JavaScript's `for...of` iterates the live array, so callbacks appended by
`addPreprocess` *during* the phase are reached by the same loop; `cur` is
the remainder of the callback being run, `todo` the not-yet-visited part
of the array, and an `addPre` appends to `todo`.  Afterwards the source
clears the array (`this.preprocesses.length = 0`), so the clock passed in
carries `preprocesses = []`.  `cyc` is the cycle number handed to each
callback.  `note` in preprocess context records `(id, cyc)`. -/
def prePhase : List Act → List (List Act) → Clock → ℕ → Clock
  | [], [], c, _ => c
  | [], cb :: todo, c, cyc => prePhase cb todo c cyc
  | .note id :: cur, todo, c, cyc =>
      prePhase cur todo { c with preTrace := c.preTrace ++ [(id, cyc)] } cyc
  | .sched t id cb :: cur, todo, c, cyc =>
      prePhase cur todo (scheduleOne c ⟨t, id, true, cb⟩) cyc
  | .cancel id :: cur, todo, c, cyc =>
      prePhase cur todo { c with events := cancelEvents id c.events } cyc
  | .addPre cb :: cur, todo, c, cyc =>
      prePhase cur (todo ++ [cb]) c cyc
termination_by cur todo _ _ => actsWeight cur + todoWeight todo
decreasing_by
  all_goals (simp [actWeight, actsWeight, todoWeight, todoWeight_append]; try omega)

/-- One full preprocess step of `runTo` / `advance`: run the phase over
the pending list (cleared up front, as the source clears it right after
the loop and the loop works on the live array), then `this.cycle++`. -/
def preStep (c : Clock) : Clock :=
  let c1 := prePhase [] c.preprocesses { c with preprocesses := [] } c.cycle
  { c1 with cycle := c1.cycle + 1 }

/-- The loop body of method `runTo` of `Clock`, fueled by the remaining
cycle budget (the source counts cycles in `i` and throws once
`runToCycleLimit <= i`). -/
def runToLoop : ℕ → ℚ → Clock → Except String Clock
  | 0, _, _ =>
      .error "Too many cycles from one runTo call. To increase the limit, modify clock.cycleLimit."
  | fuel + 1, target, c =>
      let c2 := preStep c
      match c2.events with
      | [] => .ok { c2 with time := target }
      | e :: rest =>
          if target ≤ e.time then .ok { c2 with time := target }
          else
            let c3 := { c2 with events := rest }
            if e.valid then
              runToLoop fuel target (execActs { c3 with time := e.time } e.cb)
            else
              runToLoop fuel target c3

/-- Method `runTo` of `Clock`. -/
def Clock.runTo (c : Clock) (time : ℚ) : Except String Clock :=
  if time < c.time then .error "Time provided is before clock current time."
  else runToLoop c.runToCycleLimit time c

/-- The loop of method `advance` after its first iteration's preprocess
step: every later iteration starts with an empty preprocess list (the
first phase cleared it and the invalid-skip path runs no callbacks), so
its phase is the identity and only `cycle++` remains. -/
def advanceLoop (c : Clock) : Bool × Clock :=
  match h : c.events with
  | [] => (false, c)
  | e :: rest =>
      let c3 := { c with events := rest }
      if e.valid then
        (true, execActs { c3 with time := e.time } e.cb)
      else
        advanceLoop { c3 with cycle := c3.cycle + 1 }
termination_by c.events.length
decreasing_by simp [h]

/-- Method `advance` of `Clock`: run the clock to the next valid event,
returning whether one was executed. -/
def Clock.advance (c : Clock) : Bool × Clock :=
  advanceLoop (preStep c)

/-- Module-level state of the timing helpers (`schedule` / `scheduleLoop`
module): the set of live loop ids and the global id counter. -/
structure TimingState where
  loops : List ℕ
  nextId : ℕ
deriving Repr, DecidableEq

/-- The registration part of `scheduleLoop`: `thisId = id` is recorded in
`loops`, the global counter is incremented, and the function returns the
*current* value of the global `id` — which at the `return id` statement
has already been incremented past `thisId`. -/
def scheduleLoopReg (s : TimingState) : TimingState × ℕ :=
  let thisId := s.nextId
  let s' : TimingState := ⟨s.loops ++ [thisId], s.nextId + 1⟩
  (s', s'.nextId)

/-- Model of `cancelLoop`: delete the id from the loop set. -/
def cancelLoop (s : TimingState) (id : ℕ) : TimingState :=
  ⟨s.loops.filter (fun i => i ≠ id), s.nextId⟩

/-- One firing of the event scheduled by `scheduleLoop`'s inner
`iteration(time)`: if `thisId` is no longer in the loop set the callback
returns immediately; otherwise it invokes the user callback and schedules
the successor at `time + delay`.  Returns (callback invoked?, successor
scheduled at). -/
def loopIterationFire (s : TimingState) (thisId : ℕ) (time delay : ℚ) :
    Bool × Option ℚ :=
  if s.loops.contains thisId then (true, some (time + delay)) else (false, none)

/-- A clock holding one pending preprocess that registers another
preprocess (`clock.addPreprocess(() => clock.addPreprocess(cb))`
scheduled before the cycle starts). -/
def nestedPreClock : Clock :=
  ⟨0, 0, [], [[Act.addPre [Act.note 0]]], 10000, [], []⟩

/-- C3: a preprocess registered from inside another preprocess running in
cycle `k` is executed in the same cycle `k`, not deferred to `k + 1`: the
`for...of` loop in `runTo` iterates the live `preprocesses` array, so the
appended callback is reached before the array is cleared.  Here the outer
preprocess runs in cycle 0 and the nested one also records cycle 0; after
`runTo` the preprocess list is empty, so the nested callback was not
deferred — it already ran. -/
theorem nested_preprocess_runs_same_cycle :
    Except.map Clock.preTrace (nestedPreClock.runTo 1) = .ok [(0, 0)] ∧
    Except.map Clock.preprocesses (nestedPreClock.runTo 1) = .ok [] := by
  constructor <;>
    norm_num [Clock.runTo, runToLoop, preStep, prePhase, nestedPreClock, execActs,
      Except.map]

/-- The module-level timing-helper state before any loop is created
(`loops = new Set()`, `id = 0`). -/
def freshTimingState : TimingState := ⟨[], 0⟩

/-- C4: `scheduleLoop` registers the loop under `thisId = 0` but returns
the already-incremented global counter, `1`.  Passing that returned
integer to `cancelLoop` removes nothing, so at the next firing the
iteration still finds its id in the loop set: the callback *is* invoked
and the successor *is* enqueued at `time + delay`. -/
theorem cancelLoop_returned_id_does_not_stop_loop :
    (scheduleLoopReg freshTimingState).2 = 1 ∧
    (scheduleLoopReg freshTimingState).1.loops = [0] ∧
    loopIterationFire
      (cancelLoop (scheduleLoopReg freshTimingState).1 (scheduleLoopReg freshTimingState).2)
      0 0 1 = (true, some 1) := by
  refine ⟨rfl, rfl, ?_⟩
  norm_num [scheduleLoopReg, cancelLoop, loopIterationFire, freshTimingState,
    List.contains, List.filter]

theorem scheduleOne_time (c : Clock) (e : ClockEvent) :
    (scheduleOne c e).time = c.time := by
  unfold scheduleOne; split <;> rfl

theorem execAct_time (c : Clock) (a : Act) : (execAct c a).time = c.time := by
  cases a <;> simp [execAct, scheduleOne_time]

theorem execActs_time (acts : List Act) : ∀ c : Clock, (execActs c acts).time = c.time := by
  induction acts with
  | nil => intro c; rfl
  | cons a l ih =>
      intro c
      show (execActs (execAct c a) l).time = c.time
      rw [ih, execAct_time]

theorem prePhase_time (cur : List Act) (todo : List (List Act)) (c : Clock) (cyc : ℕ) :
    (prePhase cur todo c cyc).time = c.time := by
  induction cur, todo, c, cyc using prePhase.induct <;>
    simp_all [prePhase, scheduleOne_time]

theorem preStep_time (c : Clock) : (preStep c).time = c.time := by
  simp [preStep, prePhase_time]

theorem mem_heapPush (e a : ClockEvent) (l : List ClockEvent) :
    a ∈ heapPush e l ↔ a = e ∨ a ∈ l := by
  induction l with
  | nil => simp [heapPush]
  | cons x xs ih =>
      simp only [heapPush]
      split
      · simp only [List.mem_cons, ih]; try tauto
      · simp only [List.mem_cons]; try tauto

/-- Sortedness of the spec-modelled heap: nondecreasing times. -/
def eventsSorted (l : List ClockEvent) : Prop :=
  l.Pairwise (fun a b => a.time ≤ b.time)

theorem heapPush_sorted (e : ClockEvent) (l : List ClockEvent)
    (h : eventsSorted l) : eventsSorted (heapPush e l) := by
  induction l with
  | nil => simp [heapPush, eventsSorted]
  | cons x xs ih =>
      rcases h with _ | ⟨hx, hxs⟩
      simp only [heapPush]
      split
      · refine List.Pairwise.cons ?_ (ih hxs)
        intro a ha
        rcases (mem_heapPush e a xs).mp ha with rfl | ha
        · assumption
        · exact hx a ha
      · rename_i hlt
        refine List.Pairwise.cons ?_ (List.Pairwise.cons hx hxs)
        intro a ha
        rcases List.mem_cons.mp ha with rfl | ha
        · exact le_of_not_le hlt
        · exact le_trans (le_of_not_le hlt) (hx a ha)

/-- The well-formedness invariant of a clock: the heap is sorted by time
and holds no event earlier than the present. -/
def Clock.WF (c : Clock) : Prop :=
  eventsSorted c.events ∧ ∀ e ∈ c.events, c.time ≤ e.time

theorem scheduleOne_WF (c : Clock) (e : ClockEvent) (h : c.WF) :
    (scheduleOne c e).WF := by
  unfold scheduleOne
  split
  · exact h
  · rename_i hle
    refine ⟨heapPush_sorted e c.events h.1, ?_⟩
    intro a ha
    rcases (mem_heapPush e a c.events).mp ha with rfl | ha
    · exact le_of_not_lt hle
    · exact h.2 a ha

theorem cancelEvents_WF (c : Clock) (id : ℕ) (h : c.WF) :
    Clock.WF { c with events := cancelEvents id c.events } := by
  constructor
  · have := h.1
    unfold eventsSorted cancelEvents at *
    rw [List.pairwise_map]
    refine this.imp_of_mem ?_
    intro a b _ _ hab
    split <;> split <;> simpa
  · intro e he
    simp only [cancelEvents, List.mem_map] at he
    obtain ⟨a, ha, rfl⟩ := he
    have := h.2 a ha
    split <;> simpa

theorem execAct_WF (c : Clock) (a : Act) (h : c.WF) : (execAct c a).WF := by
  cases a with
  | note id => exact h
  | sched t id cb => exact scheduleOne_WF c _ h
  | cancel id => exact cancelEvents_WF c id h
  | addPre cb => exact h

theorem execActs_WF (acts : List Act) : ∀ c : Clock, c.WF → (execActs c acts).WF := by
  induction acts with
  | nil => intro c h; exact h
  | cons a l ih =>
      intro c h
      exact ih (execAct c a) (execAct_WF c a h)

theorem prePhase_WF (cur : List Act) (todo : List (List Act)) (c : Clock) (cyc : ℕ)
    (h : c.WF) : (prePhase cur todo c cyc).WF := by
  induction cur, todo, c, cyc using prePhase.induct <;>
    simp_all [prePhase]
  case case3 ih => exact ih h
  case case4 ih => exact ih (scheduleOne_WF _ _ h)
  case case5 ih => exact ih (cancelEvents_WF _ _ h)

theorem preStep_WF (c : Clock) (h : c.WF) : (preStep c).WF := by
  have h' : Clock.WF { c with preprocesses := [] } := h
  exact prePhase_WF [] c.preprocesses { c with preprocesses := [] } c.cycle h'

/-- Evaluation of the `runTo` loop over a queue of valid events with
passive (observe-only) callbacks: each cycle pops the front event, sets
the time to its scheduled time and records the observation, until the
remaining front event would not precede the target. -/
theorem runToLoop_passive (evs : List ClockEvent) :
    ∀ (fuel : ℕ) (t0 : ℚ) (cyc lim : ℕ) (tra : List (ℕ × ℚ)) (ptr : List (ℕ × ℕ))
      (T : ℚ),
    (∀ e ∈ evs, e.valid = true ∧ e.cb = [Act.note e.id]) →
    (∀ e ∈ evs, e.time < T) →
    evs.length < fuel →
    runToLoop fuel T ⟨t0, cyc, evs, [], lim, tra, ptr⟩ =
      .ok ⟨T, cyc + (evs.length + 1), [], [], lim,
           tra ++ evs.map (fun e => (e.id, e.time)), ptr⟩ := by
  induction evs with
  | nil =>
      intro fuel t0 cyc lim tra ptr T _ _ hfuel
      cases fuel with
      | zero => omega
      | succ f => simp [runToLoop, preStep, prePhase]
  | cons e rest ih =>
      intro fuel t0 cyc lim tra ptr T hpassive hub hfuel
      cases fuel with
      | zero => simp at hfuel
      | succ f =>
          obtain ⟨hv, hcb⟩ := hpassive e (by simp)
          have hlt : e.time < T := hub e (by simp)
          simp only [runToLoop, preStep, prePhase]
          rw [if_neg (not_le.mpr hlt), hv]
          simp only [if_true, hcb, execActs, List.foldl, execAct]
          rw [ih f e.time (cyc + 1) lim (tra ++ [(e.id, e.time)]) ptr T
            (fun e' he' => hpassive e' (by simp [he']))
            (fun e' he' => hub e' (by simp [he'])) (by simp at hfuel ⊢; omega)]
          simp [List.append_assoc]
          omega

/-- C6 (amended): for a clock with no pending preprocesses whose queue
holds valid events at strictly increasing times `t₁ < … < tₙ`, all
*strictly before* `T`, with observe-only callbacks, and with a cycle
budget above `n`, a single `runTo(T)` executes all `n` callbacks in
increasing time order, each observing `clock.time` equal to its event's
scheduled time, and finishes at time `T`.  (An event scheduled exactly at
`T` is not executed — see the counterexample theorem.) -/
theorem runTo_executes_all_before_target (c : Clock) (T : ℚ)
    (hpre : c.preprocesses = [])
    (hpassive : ∀ e ∈ c.events, e.valid = true ∧ e.cb = [Act.note e.id])
    (hsorted : c.events.Pairwise (fun a b => a.time < b.time))
    (hub : ∀ e ∈ c.events, e.time < T)
    (hT : c.time ≤ T)
    (hfuel : c.events.length < c.runToCycleLimit) :
    Except.map Clock.trace (c.runTo T) =
      .ok (c.trace ++ c.events.map (fun e => (e.id, e.time))) ∧
    Except.map Clock.time (c.runTo T) = .ok T := by
  obtain ⟨t0, cyc, evs, pre, lim, tra, ptr⟩ := c
  simp only at hpre hpassive hub hfuel hsorted
  simp only at hT
  subst hpre
  unfold Clock.runTo
  rw [if_neg (not_lt.mpr hT)]
  rw [runToLoop_passive evs lim t0 cyc lim tra ptr T hpassive hub hfuel]
  simp [Except.map]

/-- A clock with a single valid event scheduled exactly at the `runTo`
target. -/
def boundaryEventClock : Clock :=
  ⟨0, 0, [⟨1, 7, true, [Act.note 7]⟩], [], 2, [], []⟩

/-- C6 counterexample: the claim admits `tₙ ≤ T`, but an event scheduled
exactly at the target does not fire: `runTo` stops as soon as the front
event's time is `≥ target` (`time <= event.time` in the source), so with
one valid event at `t₁ = 1 = T` the callback never runs (empty trace) and
the event is still queued afterwards. -/
theorem runTo_boundary_event_not_executed :
    Except.map Clock.trace (boundaryEventClock.runTo 1) = .ok [] ∧
    Except.map (fun c => c.events.length) (boundaryEventClock.runTo 1) = .ok 1 := by
  constructor <;>
    norm_num [Clock.runTo, runToLoop, preStep, prePhase, boundaryEventClock,
      Except.map]

/-- Witness for C6 at a concrete input: two valid passive events at times
1 and 2, run to `T = 3` with a cycle budget of 10. -/
theorem runTo_executes_all_before_target_witness :
    Except.map Clock.trace
      (Clock.runTo ⟨0, 0, [⟨1, 10, true, [Act.note 10]⟩, ⟨2, 20, true, [Act.note 20]⟩],
        [], 10, [], []⟩ 3) = .ok [(10, 1), (20, 2)] ∧
    Except.map Clock.time
      (Clock.runTo ⟨0, 0, [⟨1, 10, true, [Act.note 10]⟩, ⟨2, 20, true, [Act.note 20]⟩],
        [], 10, [], []⟩ 3) = .ok 3 := by
  have h := runTo_executes_all_before_target
    ⟨0, 0, [⟨1, 10, true, [Act.note 10]⟩, ⟨2, 20, true, [Act.note 20]⟩], [], 10, [], []⟩ 3
    rfl
    (by intro e he; rcases List.mem_cons.mp he with rfl | he
        · exact ⟨rfl, rfl⟩
        · rcases List.mem_cons.mp he with rfl | he
          · exact ⟨rfl, rfl⟩
          · simp at he)
    (by norm_num [List.pairwise_cons])
    (by intro e he; rcases List.mem_cons.mp he with rfl | he
        · norm_num
        · rcases List.mem_cons.mp he with rfl | he
          · norm_num
          · simp at he)
    (by norm_num)
    (by norm_num)
  simpa using h

theorem schedule_time (evs : List ClockEvent) :
    ∀ c : Clock, (Clock.schedule c evs).time = c.time := by
  induction evs with
  | nil => intro c; rfl
  | cons e l ih =>
      intro c
      show (Clock.schedule (scheduleOne c e) l).time = c.time
      rw [ih, scheduleOne_time]

theorem runToLoop_time_mono (fuel : ℕ) :
    ∀ (c : Clock) (T : ℚ), c.WF → c.time ≤ T →
    ∀ c', runToLoop fuel T c = .ok c' → c.time ≤ c'.time := by
  induction fuel with
  | zero =>
      intro c T _ _ c' h
      simp [runToLoop] at h
  | succ f ih =>
      intro c T hWF hT c' h
      have hWF2 : (preStep c).WF := preStep_WF c hWF
      have ht2 : (preStep c).time = c.time := preStep_time c
      simp only [runToLoop] at h
      cases hev : (preStep c).events with
      | nil =>
          rw [hev] at h
          simp only [Except.ok.injEq] at h
          subst h
          exact hT
      | cons e rest =>
          rw [hev] at h
          dsimp only at h
          by_cases hTe : T ≤ e.time
          · rw [if_pos hTe] at h
            simp only [Except.ok.injEq] at h
            subst h
            exact hT
          · rw [if_neg hTe] at h
            have hce : c.time ≤ e.time := by
              rw [← ht2]
              exact hWF2.2 e (by rw [hev]; exact List.mem_cons_self e rest)
            have hsorted : eventsSorted rest ∧ ∀ r ∈ rest, e.time ≤ r.time := by
              have := hWF2.1
              rw [hev] at this
              rcases this with _ | ⟨hx, hxs⟩
              exact ⟨hxs, hx⟩
            cases hv : e.valid with
            | true =>
                rw [hv] at h
                simp only [if_true] at h
                set c4 := execActs { preStep c with events := rest, time := e.time } e.cb
                  with hc4
                have hc4WF : c4.WF := by
                  refine execActs_WF e.cb _ ⟨hsorted.1, ?_⟩
                  intro r hr
                  exact hsorted.2 r hr
                have hc4t : c4.time = e.time := by
                  rw [hc4, execActs_time]
                have hrec := ih c4 T hc4WF (by rw [hc4t]; exact le_of_lt (not_le.mp hTe))
                  c' h
                rw [hc4t] at hrec
                exact le_trans hce hrec
            | false =>
                rw [hv] at h
                simp only [Bool.false_eq_true, if_false] at h
                have hc3WF : Clock.WF { preStep c with events := rest } := by
                  refine ⟨hsorted.1, ?_⟩
                  intro r hr
                  refine le_trans ?_ (hsorted.2 r hr)
                  show (preStep c).time ≤ e.time
                  rw [ht2]
                  exact hce
                have hrec := ih { preStep c with events := rest } T hc3WF
                  (by show (preStep c).time ≤ T; rw [ht2]; exact hT) c' h
                rw [show Clock.time { preStep c with events := rest } = (preStep c).time
                  from rfl, ht2] at hrec
                exact hrec

theorem advanceLoop_nil (t0 : ℚ) (cyc lim : ℕ) (pre : List (List Act))
    (tra : List (ℕ × ℚ)) (ptr : List (ℕ × ℕ)) :
    advanceLoop ⟨t0, cyc, [], pre, lim, tra, ptr⟩ =
      (false, ⟨t0, cyc, [], pre, lim, tra, ptr⟩) := by
  simp [advanceLoop]

theorem advanceLoop_cons (t0 : ℚ) (cyc lim : ℕ) (pre : List (List Act))
    (tra : List (ℕ × ℚ)) (ptr : List (ℕ × ℕ)) (e : ClockEvent)
    (rest : List ClockEvent) :
    advanceLoop ⟨t0, cyc, e :: rest, pre, lim, tra, ptr⟩ =
      if e.valid then (true, execActs ⟨e.time, cyc, rest, pre, lim, tra, ptr⟩ e.cb)
      else advanceLoop ⟨t0, cyc + 1, rest, pre, lim, tra, ptr⟩ := by
  rw [advanceLoop]

theorem advanceLoop_time_mono (evs : List ClockEvent) :
    ∀ (t0 : ℚ) (cyc lim : ℕ) (pre : List (List Act)) (tra : List (ℕ × ℚ))
      (ptr : List (ℕ × ℕ)),
    Clock.WF ⟨t0, cyc, evs, pre, lim, tra, ptr⟩ →
    t0 ≤ (advanceLoop ⟨t0, cyc, evs, pre, lim, tra, ptr⟩).2.time := by
  induction evs with
  | nil =>
      intro t0 cyc lim pre tra ptr _
      rw [advanceLoop_nil]
  | cons e rest ih =>
      intro t0 cyc lim pre tra ptr hWF
      rw [advanceLoop_cons]
      by_cases hv : e.valid
      · rw [if_pos hv]
        have he : t0 ≤ e.time := hWF.2 e (List.mem_cons_self e rest)
        simpa [execActs_time] using he
      · rw [if_neg hv]
        have hs := hWF.1
        rcases hs with _ | ⟨hx, hxs⟩
        refine ih t0 (cyc + 1) lim pre tra ptr ⟨hxs, ?_⟩
        intro r hr
        exact hWF.2 r (List.mem_cons_of_mem e hr)

/-- Outcome predicate for `runTo`: if it returns a clock, that clock's
time is at least `t0` (an error outcome constrains nothing). -/
def timeNondecreasing (t0 : ℚ) : Except String Clock → Prop
  | .ok c => t0 ≤ c.time
  | .error _ => True

/-- C9: `clock.time` never decreases.  For a well-formed clock (its heap
holds no event before the present, as `schedule` guarantees), `schedule`
and `addPreprocess` leave the time unchanged, `runTo` with a valid target
`T ≥ clock.time` only moves time forward (callbacks included — callbacks
act on the clock through `schedule` / `addPreprocess` / cancellation /
observation, none of which writes `time`), and `advance` only moves time
forward. -/
theorem clock_time_never_decreases (c : Clock) (evs : List ClockEvent)
    (ps : List (List Act)) (T : ℚ) (hWF : c.WF) (hT : c.time ≤ T) :
    (c.schedule evs).time = c.time ∧
    (c.addPreprocess ps).time = c.time ∧
    timeNondecreasing c.time (c.runTo T) ∧
    c.time ≤ (c.advance).2.time := by
  refine ⟨schedule_time evs c, rfl, ?_, ?_⟩
  · unfold Clock.runTo
    rw [if_neg (not_lt.mpr hT)]
    cases hr : runToLoop c.runToCycleLimit T c with
    | error msg => trivial
    | ok c' =>
        have := runToLoop_time_mono c.runToCycleLimit c T hWF hT c' hr
        simpa [timeNondecreasing] using this
  · unfold Clock.advance
    have hWF2 := preStep_WF c hWF
    have ht2 := preStep_time c
    have h3 := advanceLoop_time_mono (preStep c).events (preStep c).time
      (preStep c).cycle (preStep c).runToCycleLimit (preStep c).preprocesses
      (preStep c).trace (preStep c).preTrace hWF2
    calc c.time = (preStep c).time := ht2.symm
      _ ≤ _ := h3

/-- Witness for C9 at a concrete input: the empty well-formed clock at
time 0 run to target 1. -/
theorem clock_time_never_decreases_witness :
    (Clock.schedule ⟨0, 0, [], [], 5, [], []⟩ []).time =
      Clock.time ⟨0, 0, [], [], 5, [], []⟩ ∧
    (Clock.addPreprocess ⟨0, 0, [], [], 5, [], []⟩ []).time =
      Clock.time ⟨0, 0, [], [], 5, [], []⟩ ∧
    timeNondecreasing (Clock.time ⟨0, 0, [], [], 5, [], []⟩)
      (Clock.runTo ⟨0, 0, [], [], 5, [], []⟩ 1) ∧
    Clock.time ⟨0, 0, [], [], 5, [], []⟩ ≤
      (Clock.advance ⟨0, 0, [], [], 5, [], []⟩).2.time :=
  clock_time_never_decreases ⟨0, 0, [], [], 5, [], []⟩ [] [] 1
    ⟨List.Pairwise.nil, by simp⟩ (by norm_num)

/-- Model of the `ToleranceProfile` class. -/
structure ToleranceProfile where
  closeCollisionThresh : ℝ
  directionalTolerance : ℝ

/-- Model of the `Collision` record built by `vertexEdge`: the numeric
payload (position, tangent, velocity of object `a`, relative velocity and
time).  The `vertex` / `edge` / `objA` / `objB` references that the source
also stores are object identities that play no part in the claims settled
here; `resolve` receives the two trajectories explicitly. -/
structure Collision where
  pos : V2 ℝ
  tangent : V2 ℝ
  vel : V2 ℝ
  relVel : V2 ℝ
  time : ℝ

open Classical in
/-- Model of the inner `verifyCollision` of
`chrona/engine/collisions/vertex-edge-collision.mjs`.  The closure
parameters `eTransform` and `vTransform` are passed by the source but
never read in the body; the captured environment is the tolerance
profile, the edge trajectory's motion (`eTr.motion`), the edge's
geometry-space endpoints, the vertex velocity `vav`, the `invert` flag
and `baseTime`.  The acceptance tests run in source order and the first
failure returns `null`. -/
noncomputable def verifyCollision (toleranceProfile : ToleranceProfile)
    (eMotion : Transform ℝ) (edgeP0 edgeP1 vav : V2 ℝ) (invert : Bool)
    (baseTime : ℝ) (eTransform vTransform : Transform ℝ)
    (ep vp v0p v1p pos : V2 ℝ) (t : ℝ) : Option Collision :=
  let s := ep.dot vp / ep.mag2
  if s < 0 ∨ 1 < s then none
  else if ¬(0 < v0p.cross v1p) then none
  else if ¬(v0p.cross ep * v1p.cross ep ≤
      ep.mag2 * v0p.mag * v1p.mag * toleranceProfile.directionalTolerance) then none
  else if ¬(((v0p.scale v1p.mag).addScaled v1p v0p.mag).dot ep ≤ 0) then none
  else
    let edgeVel := eMotion.applyVec (edgeP0.lerp edgeP1 s)
    let relVel := vav.sub edgeVel
    if ep.cross relVel ≤ 0 then none
    else
      let invertScl : ℝ := 1 - 2 * (if invert then 1 else 0)
      let aVel := if invert then vav else edgeVel
      some ⟨pos, ep.scale invertScl, aVel, relVel.scale invertScl, baseTime + t⟩

/-- C1 counterexample: a candidate whose relative velocity satisfies
`ep × relVel > 0` is *not* rejected — at this concrete input (edge
direction `(-1,0)`, static edge, vertex at parameter `s = 1/2` moving with
velocity `(0,-1)`, convex vertex `(0,-1)→(1,0)`, zero tolerances) the
cross product is `1 > 0`, yet `verifyCollision` emits a collision.  The
source rejects on `ep.cross(relVel) <= 0`, the opposite sign of the
claim. -/
theorem verifyCollision_emits_on_positive_cross :
    0 < V2.cross (⟨-1, 0⟩ : V2 ℝ)
      (V2.sub ⟨0, -1⟩ (Transform.applyVec Transform.zero
        (V2.lerp ⟨0, 0⟩ ⟨-1, 0⟩
          (V2.dot ⟨-1, 0⟩ ⟨-1/2, 0⟩ / V2.mag2 (⟨-1, 0⟩ : V2 ℝ))))) ∧
    (verifyCollision ⟨0, 0⟩ Transform.zero ⟨0, 0⟩ ⟨-1, 0⟩ ⟨0, -1⟩ false 0
      Transform.identity Transform.identity
      ⟨-1, 0⟩ ⟨-1/2, 0⟩ ⟨0, -1⟩ ⟨1, 0⟩ ⟨-1/2, 0⟩ 0).isSome = true := by
  constructor
  · norm_num [V2.cross, V2.sub, V2.lerp, V2.dot, V2.mag2, Transform.applyVec,
      Transform.zero]
  · norm_num [verifyCollision, V2.cross, V2.sub, V2.lerp, V2.dot, V2.mag2,
      V2.mag, V2.scale, V2.addScaled, Transform.applyVec, Transform.zero,
      Real.sqrt_one]

/-- C1 (amended): for a candidate that passes the first four acceptance
tests (parameter on segment, convex vertex, direction-in-arc, correct
winding), the approach test accepts — and `verifyCollision` emits a
collision — exactly when `ep × relVel > 0`, where
`relVel = vav − eMotion·lerp(edgeP0, edgeP1, s)`; a candidate with
`ep × relVel ≤ 0` is rejected and emits no collision. -/
theorem verifyCollision_approach_iff (toleranceProfile : ToleranceProfile)
    (eMotion : Transform ℝ) (edgeP0 edgeP1 vav : V2 ℝ) (invert : Bool)
    (baseTime : ℝ) (eTransform vTransform : Transform ℝ)
    (ep vp v0p v1p pos : V2 ℝ) (t : ℝ)
    (h1 : ¬(ep.dot vp / ep.mag2 < 0 ∨ 1 < ep.dot vp / ep.mag2))
    (h2 : 0 < v0p.cross v1p)
    (h3 : v0p.cross ep * v1p.cross ep ≤
      ep.mag2 * v0p.mag * v1p.mag * toleranceProfile.directionalTolerance)
    (h4 : ((v0p.scale v1p.mag).addScaled v1p v0p.mag).dot ep ≤ 0) :
    (verifyCollision toleranceProfile eMotion edgeP0 edgeP1 vav invert baseTime
      eTransform vTransform ep vp v0p v1p pos t).isSome = true ↔
    0 < ep.cross (vav.sub (eMotion.applyVec
      (edgeP0.lerp edgeP1 (ep.dot vp / ep.mag2)))) := by
  unfold verifyCollision
  rw [if_neg h1, if_neg (not_not_intro h2), if_neg (not_not_intro h3),
    if_neg (not_not_intro h4)]
  by_cases h5 : ep.cross (vav.sub (eMotion.applyVec
      (edgeP0.lerp edgeP1 (ep.dot vp / ep.mag2)))) ≤ 0
  · rw [if_pos h5]
    simp [not_lt.mpr h5]
  · rw [if_neg h5]
    simp [lt_of_not_le h5]

/-- Witness for C1 at the concrete input of the counterexample: the first
four tests pass there, and the iff instantiates with both sides true. -/
theorem verifyCollision_approach_iff_witness :
    (verifyCollision ⟨0, 0⟩ Transform.zero ⟨0, 0⟩ ⟨-1, 0⟩ ⟨0, -1⟩ false 0
      Transform.identity Transform.identity
      ⟨-1, 0⟩ ⟨-1/2, 0⟩ ⟨0, -1⟩ ⟨1, 0⟩ ⟨-1/2, 0⟩ 0).isSome = true ↔
    0 < V2.cross (⟨-1, 0⟩ : V2 ℝ)
      (V2.sub ⟨0, -1⟩ (Transform.applyVec Transform.zero
        (V2.lerp ⟨0, 0⟩ ⟨-1, 0⟩
          (V2.dot ⟨-1, 0⟩ ⟨-1/2, 0⟩ / V2.mag2 (⟨-1, 0⟩ : V2 ℝ))))) :=
  verifyCollision_approach_iff ⟨0, 0⟩ Transform.zero ⟨0, 0⟩ ⟨-1, 0⟩ ⟨0, -1⟩
    false 0 Transform.identity Transform.identity
    ⟨-1, 0⟩ ⟨-1/2, 0⟩ ⟨0, -1⟩ ⟨1, 0⟩ ⟨-1/2, 0⟩ 0
    (by norm_num [V2.dot, V2.mag2])
    (by norm_num [V2.cross])
    (by norm_num [V2.cross, V2.mag2, V2.mag, Real.sqrt_one])
    (by norm_num [V2.scale, V2.addScaled, V2.dot, V2.mag, Real.sqrt_one])

open Classical in
/-- Model of method `resolve` of the `Collision` class: a normal impulse
along `perp(tangent)`, applied to object `a`'s trajectory when
`weightB != 0` and to object `b`'s trajectory when `weightA != 0`.  The
two trajectories are passed explicitly (`this.objA.trajectory`,
`this.objB.trajectory`), `now` being the clock time their `impulse`
method normalizes at. -/
noncomputable def Collision.resolve (col : Collision) (trajA trajB : Trajectory ℝ)
    (now additionalVel restitutionCoefficient weightA weightB : ℝ) :
    Trajectory ℝ × Trajectory ℝ :=
  let perpDir := (col.tangent.perp).normalize
  let perpVel := (col.relVel.project perpDir).addScaled perpDir additionalVel
  let trajA' :=
    if weightB ≠ 0 then
      trajA.impulse now
        (perpVel.scale ((1 + restitutionCoefficient) * weightB / (weightA + weightB)))
    else trajA
  let trajB' :=
    if weightA ≠ 0 then
      trajB.impulse now
        (perpVel.scale (-((1 + restitutionCoefficient) * weightA / (weightA + weightB))))
    else trajB
  (trajA', trajB')

/-- C5 counterexample: with `weightA = 0` and `weightB = 1`, `resolve`
does *not* leave object `A`'s motion unchanged — the `weightB != 0`
branch applies the full impulse to `A`.  At tangent `(1,0)`, relative
velocity `(0,1)`, restitution 1 and no additional velocity, `A`'s motion
translation column becomes `(0,2)`, whereas it was `(0,0)` before. -/
theorem resolve_weightA_zero_changes_A :
    ((Collision.resolve ⟨⟨0, 0⟩, ⟨1, 0⟩, ⟨0, 0⟩, ⟨0, 1⟩, 0⟩
        ⟨Transform.identity, Transform.zero, 0⟩
        ⟨Transform.identity, Transform.zero, 0⟩ 0 0 1 0 1).1).motion.p =
      (⟨0, 2⟩ : V2 ℝ) ∧
    ((Collision.resolve ⟨⟨0, 0⟩, ⟨1, 0⟩, ⟨0, 0⟩, ⟨0, 1⟩, 0⟩
        ⟨Transform.identity, Transform.zero, 0⟩
        ⟨Transform.identity, Transform.zero, 0⟩ 0 0 1 0 1).1).motion.p ≠
      (Trajectory.mk (α := ℝ) Transform.identity Transform.zero 0).motion.p := by
  have h : ((Collision.resolve ⟨⟨0, 0⟩, ⟨1, 0⟩, ⟨0, 0⟩, ⟨0, 1⟩, 0⟩
        ⟨Transform.identity, Transform.zero, 0⟩
        ⟨Transform.identity, Transform.zero, 0⟩ 0 0 1 0 1).1).motion.p =
      (⟨0, 2⟩ : V2 ℝ) := by
    norm_num [Collision.resolve, V2.perp, V2.normalize, V2.mag, V2.project,
      V2.addScaled, V2.scale, V2.add, Trajectory.impulse, Trajectory.updateToPresent,
      Transform.addScaled, Transform.zero, Transform.identity, Real.sqrt_one,
      V2.mk.injEq]
  refine ⟨h, ?_⟩
  rw [h]
  norm_num [Transform.zero, V2.mk.injEq]

/-- C5 (amended): `weightA = 0` pins object `B`, not object `A` — with
`weightA = 0` and `weightB > 0`, `resolve` leaves object `B`'s trajectory
(and hence its motion) unchanged, while object `A` receives the full
normal impulse. -/
theorem resolve_weightA_zero_pins_B (col : Collision) (trajA trajB : Trajectory ℝ)
    (now additionalVel restitutionCoefficient weightB : ℝ) (h : 0 < weightB) :
    (col.resolve trajA trajB now additionalVel restitutionCoefficient 0 weightB).2 =
      trajB := by
  simp [Collision.resolve]

/-- Witness for C5 at a concrete input: the counterexample's collision
with `weightA = 0`, `weightB = 1` leaves `B`'s trajectory unchanged. -/
theorem resolve_weightA_zero_pins_B_witness :
    (0 : ℝ) < 1 ∧
    (Collision.resolve ⟨⟨0, 0⟩, ⟨1, 0⟩, ⟨0, 0⟩, ⟨0, 1⟩, 0⟩
        ⟨Transform.identity, Transform.zero, 0⟩
        ⟨Transform.identity, Transform.zero, 0⟩ 0 0 1 0 1).2 =
      ⟨Transform.identity, Transform.zero, 0⟩ :=
  ⟨by norm_num,
   resolve_weightA_zero_pins_B ⟨⟨0, 0⟩, ⟨1, 0⟩, ⟨0, 0⟩, ⟨0, 1⟩, 0⟩
     ⟨Transform.identity, Transform.zero, 0⟩ ⟨Transform.identity, Transform.zero, 0⟩
     0 0 1 1 (by norm_num)⟩
